import Mathlib

/-!
Verification of the e6 viewer (Express proxy `server.js` + feed controller
script).  The JavaScript source is shallowly embedded: JSON values parsed by
`JSON.parse` are modelled by the inductive `Json` (structural value
semantics), JavaScript truthiness by `jsTruthy`, property access by `jsGet`
(`none` = `undefined`), optional chaining by `optChain`, and the
short-circuiting `||` operator by `jsOrVal`.  Fallible paths (thrown
`TypeError`s, network failures) are made explicit with `Option`/`Except`.
Upstream HTTP responses are supplied by oracle functions mapping a request
URL (or a creator id) to a `FetchResp`.
-/

inductive Json where
  | null
  | bool (b : Bool)
  | num (n : Int)
  | str (s : String)
  | arr (elems : List Json)
  | obj (fields : List (String × Json))

mutual

def Json.beq : Json → Json → Bool
  | .null, .null => true
  | .bool a, .bool b => a = b
  | .num a, .num b => a = b
  | .str a, .str b => a = b
  | .arr a, .arr b => Json.beqList a b
  | .obj a, .obj b => Json.beqFields a b
  | _, _ => false

def Json.beqList : List Json → List Json → Bool
  | [], [] => true
  | x :: xs, y :: ys => Json.beq x y && Json.beqList xs ys
  | _, _ => false

def Json.beqFields : List (String × Json) → List (String × Json) → Bool
  | [], [] => true
  | (k, v) :: xs, (l, w) :: ys => k = l && Json.beq v w && Json.beqFields xs ys
  | _, _ => false

end

mutual

theorem Json.eq_of_beq : (a b : Json) → Json.beq a b = true → a = b
  | .null, .null, _ => rfl
  | .bool _, .bool _, h => by simpa [Json.beq] using h
  | .num _, .num _, h => by simpa [Json.beq] using h
  | .str _, .str _, h => by simpa [Json.beq] using h
  | .arr a, .arr b, h => by
      rw [Json.eqList_of_beqList a b (by simpa [Json.beq] using h)]
  | .obj a, .obj b, h => by
      rw [Json.eqFields_of_beqFields a b (by simpa [Json.beq] using h)]
  | .null, .bool _, h => by simp [Json.beq] at h
  | .null, .num _, h => by simp [Json.beq] at h
  | .null, .str _, h => by simp [Json.beq] at h
  | .null, .arr _, h => by simp [Json.beq] at h
  | .null, .obj _, h => by simp [Json.beq] at h
  | .bool _, .null, h => by simp [Json.beq] at h
  | .bool _, .num _, h => by simp [Json.beq] at h
  | .bool _, .str _, h => by simp [Json.beq] at h
  | .bool _, .arr _, h => by simp [Json.beq] at h
  | .bool _, .obj _, h => by simp [Json.beq] at h
  | .num _, .null, h => by simp [Json.beq] at h
  | .num _, .bool _, h => by simp [Json.beq] at h
  | .num _, .str _, h => by simp [Json.beq] at h
  | .num _, .arr _, h => by simp [Json.beq] at h
  | .num _, .obj _, h => by simp [Json.beq] at h
  | .str _, .null, h => by simp [Json.beq] at h
  | .str _, .bool _, h => by simp [Json.beq] at h
  | .str _, .num _, h => by simp [Json.beq] at h
  | .str _, .arr _, h => by simp [Json.beq] at h
  | .str _, .obj _, h => by simp [Json.beq] at h
  | .arr _, .null, h => by simp [Json.beq] at h
  | .arr _, .bool _, h => by simp [Json.beq] at h
  | .arr _, .num _, h => by simp [Json.beq] at h
  | .arr _, .str _, h => by simp [Json.beq] at h
  | .arr _, .obj _, h => by simp [Json.beq] at h
  | .obj _, .null, h => by simp [Json.beq] at h
  | .obj _, .bool _, h => by simp [Json.beq] at h
  | .obj _, .num _, h => by simp [Json.beq] at h
  | .obj _, .str _, h => by simp [Json.beq] at h
  | .obj _, .arr _, h => by simp [Json.beq] at h

theorem Json.eqList_of_beqList : (a b : List Json) → Json.beqList a b = true → a = b
  | [], [], _ => rfl
  | x :: xs, y :: ys, h => by
      have h' := h
      simp only [Json.beqList, Bool.and_eq_true] at h'
      rw [Json.eq_of_beq x y h'.1, Json.eqList_of_beqList xs ys h'.2]
  | [], _ :: _, h => by simp [Json.beqList] at h
  | _ :: _, [], h => by simp [Json.beqList] at h

theorem Json.eqFields_of_beqFields :
    (a b : List (String × Json)) → Json.beqFields a b = true → a = b
  | [], [], _ => rfl
  | (k, v) :: xs, (l, w) :: ys, h => by
      have h' := h
      simp only [Json.beqFields, Bool.and_eq_true, decide_eq_true_eq] at h'
      rw [h'.1.1, Json.eq_of_beq v w h'.1.2, Json.eqFields_of_beqFields xs ys h'.2]
  | [], _ :: _, h => by simp [Json.beqFields] at h
  | _ :: _, [], h => by simp [Json.beqFields] at h

end

mutual

theorem Json.beq_refl : (a : Json) → Json.beq a a = true
  | .null => rfl
  | .bool _ => by simp [Json.beq]
  | .num _ => by simp [Json.beq]
  | .str _ => by simp [Json.beq]
  | .arr a => by simpa [Json.beq] using Json.beqList_refl a
  | .obj a => by simpa [Json.beq] using Json.beqFields_refl a

theorem Json.beqList_refl : (a : List Json) → Json.beqList a a = true
  | [] => rfl
  | x :: xs => by
      simp only [Json.beqList, Bool.and_eq_true]
      exact ⟨Json.beq_refl x, Json.beqList_refl xs⟩

theorem Json.beqFields_refl : (a : List (String × Json)) → Json.beqFields a a = true
  | [] => rfl
  | (k, v) :: xs => by
      simp only [Json.beqFields, Bool.and_eq_true, decide_eq_true_eq]
      exact ⟨⟨by simp, Json.beq_refl v⟩, Json.beqFields_refl xs⟩

end

instance : DecidableEq Json := fun a b =>
  if h : Json.beq a b = true then isTrue (Json.eq_of_beq a b h)
  else isFalse (fun hh => h (hh ▸ Json.beq_refl a))

/-- JavaScript truthiness of a JSON value (`NaN` cannot arise from our
integer-valued model; `[]` and `\x7b\x7d` are truthy in JavaScript). -/
def jsTruthy : Json → Bool
  | .null => false
  | .bool b => b
  | .num n => n ≠ 0
  | .str s => s ≠ ""
  | .arr _ => true
  | .obj _ => true

/-- Truthiness of a possibly-`undefined` value (`none` = `undefined`, falsy). -/
def truthyO : Option Json → Bool
  | some v => jsTruthy v
  | none => false

/-- Property read `j.k` on a non-`null` receiver: `undefined` (`none`) unless
`j` is an object with field `k`.  (JavaScript object keys are unique, so
taking the first match is exact.) -/
def jsGet (j : Json) (k : String) : Option Json :=
  match j with
  | .obj fs => (fs.find? (fun p => p.1 = k)).map (fun p => p.2)
  | _ => none

/-- Optional chaining `o?.k`: `undefined` when the receiver is `undefined` or
`null`, otherwise a plain property read. -/
def optChain (o : Option Json) (k : String) : Option Json :=
  match o with
  | none => none
  | some .null => none
  | some v => jsGet v k

/-- JavaScript `a || b` where `a` may be `undefined` and the expression is
known to end in a defined default: the value of `a` when truthy, else `b`. -/
def jsOrVal (a : Option Json) (b : Json) : Json :=
  match a with
  | some v => if jsTruthy v then v else b
  | none => b

theorem jsTruthy_ne_empty_str {v : Json} (h : jsTruthy v = true) : v ≠ .str "" := by
  intro hv
  subst hv
  simp [jsTruthy] at h

theorem jsOrVal_truthy {a : Option Json} {v : Json} {b : Json}
    (ha : a = some v) (hv : jsTruthy v = true) : jsOrVal a b = v := by
  subst ha
  simp [jsOrVal, hv]

theorem jsOrVal_fallback {a : Option Json} {b : Json}
    (ha : truthyO a = false) : jsOrVal a b = b := by
  cases a with
  | none => rfl
  | some v =>
      simp only [truthyO] at ha
      simp [jsOrVal, ha]

/-!
Feed script, `escapeHtml` (lines 22-29) and the card info markup built in
`addPost` (lines 155-162).  Strings are modelled as `List Char`;
`String.prototype.replaceAll` with a one-character pattern replaces every
occurrence of that character, which is exactly a per-character `flatMap`.
The artist text and description reach `infoHTML` already stringified (the
script interpolates them into a template literal).
-/

/-- The double-quote character `"`. -/
def dquoteChar : Char := Char.ofNat 34

/-- The single-quote character. -/
def squoteChar : Char := Char.ofNat 39

/-- `s.replaceAll(p, r)` for a single-character pattern `p`. -/
def replaceAllChar (p : Char) (r : List Char) : List Char → List Char
  | [] => []
  | c :: cs => (if c = p then r else [c]) ++ replaceAllChar p r cs

/-- `escapeHtml` (feed script lines 22-29): five sequential `replaceAll`
calls, ampersand first, then `<`, `>`, `"`, `'`. -/
def escapeHtml (s : List Char) : List Char :=
  replaceAllChar squoteChar "&#039;".data
    (replaceAllChar dquoteChar "&quot;".data
      (replaceAllChar '>' "&gt;".data
        (replaceAllChar '<' "&lt;".data
          (replaceAllChar '&' "&amp;".data s))))

/-- Single-pass character escaping; proved equal to the sequential
`escapeHtml` composition below. -/
def escChar (c : Char) : List Char :=
  if c = '&' then "&amp;".data
  else if c = '<' then "&lt;".data
  else if c = '>' then "&gt;".data
  else if c = dquoteChar then "&quot;".data
  else if c = squoteChar then "&#039;".data
  else [c]

/-- The four HTML-dangerous characters that must never survive escaping. -/
def htmlSpecials : List Char := ['<', '>', dquoteChar, squoteChar]

/-- What must follow an ampersand in escaped output: the tail of one of the
five entities produced by `escapeHtml`. -/
def entityTails : List (List Char) :=
  ["amp;".data, "lt;".data, "gt;".data, "quot;".data, "#039;".data]

/-- Every `&` in the list is the start of one of the five HTML entities. -/
def ampOk : List Char → Bool
  | [] => true
  | c :: rest =>
      (if c = '&' then entityTails.any (fun e => e.isPrefixOf rest) else true)
        && ampOk rest

/-- The info markup `addPost` assigns to `info.innerHTML` (lines 157-162):
fixed template pieces around the escaped artist text, the three score
numbers, the comment count, and (when the description is truthy, i.e.
non-empty) the escaped description truncated to 300 characters. -/
def infoHTML (artistText desc : List Char) (total up down commentCount : Int) :
    List Char :=
  "\n    <div><strong>Artist:</strong> ".data ++ escapeHtml artistText ++
  "</div>\n    <div><strong>Score:</strong> ".data ++ (toString total).data ++
  " (⬆ ".data ++ (toString up).data ++
  " / ⬇ ".data ++ (toString down).data ++
  ")</div>\n    <div><strong>Comments:</strong> ".data ++
  (toString commentCount).data ++
  "</div>\n    ".data ++
  (if desc = [] then [] else
    "<div style=\"margin-top:6px; opacity:0.95;\">".data ++
    (escapeHtml desc).take 300 ++ "</div>".data) ++
  "\n  ".data

theorem replaceAllChar_append (p : Char) (r : List Char) (a b : List Char) :
    replaceAllChar p r (a ++ b) = replaceAllChar p r a ++ replaceAllChar p r b := by
  induction a with
  | nil => rfl
  | cons c cs ih => simp [replaceAllChar, ih]

theorem escapeHtml_append (a b : List Char) :
    escapeHtml (a ++ b) = escapeHtml a ++ escapeHtml b := by
  simp [escapeHtml, replaceAllChar_append]

theorem escapeHtml_single (c : Char) : escapeHtml [c] = escChar c := by
  by_cases h1 : c = '&'
  · subst h1; rfl
  · by_cases h2 : c = '<'
    · subst h2; rfl
    · by_cases h3 : c = '>'
      · subst h3; rfl
      · by_cases h4 : c = dquoteChar
        · subst h4; rfl
        · by_cases h5 : c = squoteChar
          · subst h5; rfl
          · simp [escapeHtml, replaceAllChar, escChar, h1, h2, h3, h4, h5]

theorem escapeHtml_eq_flatMap (s : List Char) : escapeHtml s = s.flatMap escChar := by
  induction s with
  | nil => rfl
  | cons c cs ih =>
      rw [List.flatMap_cons, ← ih, ← escapeHtml_single c, ← escapeHtml_append]
      rfl

theorem escChar_not_special (c : Char) : ∀ x ∈ escChar c, x ∉ htmlSpecials := by
  by_cases h1 : c = '&'
  · subst h1; decide
  · by_cases h2 : c = '<'
    · subst h2; decide
    · by_cases h3 : c = '>'
      · subst h3; decide
      · by_cases h4 : c = dquoteChar
        · subst h4; decide
        · by_cases h5 : c = squoteChar
          · subst h5; decide
          · intro x hx
            simp only [escChar, if_neg h1, if_neg h2, if_neg h3, if_neg h4,
              if_neg h5, List.mem_singleton] at hx
            subst hx
            simp only [htmlSpecials, List.mem_cons, List.mem_singleton]
            rintro (h | h | h | h) <;> simp_all

theorem escapeHtml_not_special (s : List Char) :
    ∀ x ∈ escapeHtml s, x ∉ htmlSpecials := by
  intro x hx
  rw [escapeHtml_eq_flatMap] at hx
  rcases List.mem_flatMap.mp hx with ⟨c, _, hxc⟩
  exact escChar_not_special c x hxc

theorem ampOk_cons_ne {c : Char} (h : ¬ c = '&') (rest : List Char) :
    ampOk (c :: rest) = ampOk rest := by
  simp [ampOk, h]

theorem ampOk_append_no_amp (e t : List Char) (he : ∀ x ∈ e, x ≠ '&')
    (ht : ampOk t = true) : ampOk (e ++ t) = true := by
  induction e with
  | nil => simpa using ht
  | cons c cs ih =>
      rw [List.cons_append, ampOk_cons_ne (he c (by simp)) _]
      exact ih (fun x hx => he x (by simp [hx]))

theorem isPrefixOf_append_self (e t : List Char) : e.isPrefixOf (e ++ t) = true := by
  simp [List.isPrefixOf_iff_prefix]

theorem ampOk_entity (tail t : List Char) (htail : tail ∈ entityTails)
    (hne : ∀ x ∈ tail, x ≠ '&') (ht : ampOk t = true) :
    ampOk ('&' :: (tail ++ t)) = true := by
  simp only [ampOk, if_pos rfl, Bool.and_eq_true]
  exact ⟨List.any_eq_true.mpr ⟨tail, htail, isPrefixOf_append_self tail t⟩,
    ampOk_append_no_amp tail t hne ht⟩

theorem ampOk_escChar_append (c : Char) (t : List Char) (ht : ampOk t = true) :
    ampOk (escChar c ++ t) = true := by
  by_cases h1 : c = '&'
  · subst h1
    exact ampOk_entity "amp;".data t (by decide) (by decide) ht
  · by_cases h2 : c = '<'
    · subst h2
      exact ampOk_entity "lt;".data t (by decide) (by decide) ht
    · by_cases h3 : c = '>'
      · subst h3
        exact ampOk_entity "gt;".data t (by decide) (by decide) ht
      · by_cases h4 : c = dquoteChar
        · subst h4
          exact ampOk_entity "quot;".data t (by decide) (by decide) ht
        · by_cases h5 : c = squoteChar
          · subst h5
            exact ampOk_entity "#039;".data t (by decide) (by decide) ht
          · simp only [escChar, if_neg h1, if_neg h2, if_neg h3, if_neg h4,
              if_neg h5, List.singleton_append]
            rw [ampOk_cons_ne h1 t]
            exact ht

theorem escapeHtml_ampOk (s : List Char) : ampOk (escapeHtml s) = true := by
  rw [escapeHtml_eq_flatMap]
  induction s with
  | nil => rfl
  | cons c cs ih =>
      rw [List.flatMap_cons]
      exact ampOk_escChar_append c _ ih

theorem count_lt_escapeHtml (s : List Char) : (escapeHtml s).count '<' = 0 :=
  List.count_eq_zero.mpr (fun h => escapeHtml_not_special s '<' h (by decide))

theorem count_lt_escapeHtml_take (s : List Char) (n : Nat) :
    ((escapeHtml s).take n).count '<' = 0 :=
  List.count_eq_zero.mpr
    (fun h => escapeHtml_not_special s '<' ((List.take_sublist n _).subset h) (by decide))

theorem infoHTML_count_lt (a d a' d' : List Char) (t u dn cc : Int)
    (hd : d = [] ↔ d' = []) :
    (infoHTML a d t u dn cc).count '<' = (infoHTML a' d' t u dn cc).count '<' := by
  by_cases hde : d = []
  · have hde' : d' = [] := hd.mp hde
    subst hde
    subst hde'
    simp only [infoHTML, if_pos, List.count_append, count_lt_escapeHtml]
  · have hde' : ¬ d' = [] := fun h => hde (hd.mpr h)
    simp only [infoHTML, if_neg hde, if_neg hde', List.count_append,
      count_lt_escapeHtml, count_lt_escapeHtml_take]

/-!
Feed controller (feed script lines 11-75 and 336-375): cards, the
current-card computation `getCurrentIndexInFeed`, and `pruneAroundCurrent`.
Layout model: the cards are stacked vertically in the feed container, so
`offsetTop` of card `i` is the sum of the heights of cards `0..i-1`, and
`offsetHeight`/`clientHeight`/`scrollTop` are integer pixel values.  The
comparison `|center - mid| < bestDist` uses halves of integers, so both
sides are doubled here (`2*center` and `2*mid` are integers and doubling
preserves the strict order exactly).  A card's open comment panel may have
registered a document-level outside-tap listener (`_outsideTapHandler`,
lines 264-270); `handlerId` records it and `docListeners` is the set of
listener ids currently registered on the document.
-/

def KEEP_BEHIND : Nat := 10

def PRELOAD_AHEAD : Nat := 5

structure Card where
  fetchIdx : Nat
  height : Nat
  handlerId : Option Nat
deriving DecidableEq

structure FeedState where
  cards : List Card
  scrollTop : Int
  clientHeight : Int
  docListeners : List Nat
deriving DecidableEq

/-- The `forEach` loop of `getCurrentIndexInFeed` (lines 44-51): walk the
cards tracking the offset top, the best index so far and the best (doubled)
distance so far (`none` = the initial `Infinity`); strict improvement only,
so the first index attaining the minimum wins. -/
def scanBest (mid2 : Int) : List Card → Int → Nat → Nat → Option Nat → Nat
  | [], _, _, best, _ => best
  | c :: rest, top, i, best, bd =>
      let d := (2 * top + (c.height : Int) - mid2).natAbs
      match bd with
      | none => scanBest mid2 rest (top + (c.height : Int)) (i + 1) i (some d)
      | some b =>
          if d < b then scanBest mid2 rest (top + (c.height : Int)) (i + 1) i (some d)
          else scanBest mid2 rest (top + (c.height : Int)) (i + 1) best (some b)

/-- `getCurrentIndexInFeed` (lines 35-54): 0 for an empty feed, else the
index of the card whose center is closest to the viewport center. -/
def getCurrentIndexInFeed (st : FeedState) : Nat :=
  if st.cards = [] then 0
  else scanBest (2 * st.scrollTop + st.clientHeight) st.cards 0 0 0 none

/-- `min` of the keep-window (line 345): `Math.max(0, idx - KEEP_BEHIND)`,
which is exactly truncated subtraction on `Nat`. -/
def pruneLo (st : FeedState) : Nat := getCurrentIndexInFeed st - KEEP_BEHIND

/-- `max` of the keep-window (line 346). -/
def pruneHi (st : FeedState) : Nat :=
  Nat.min (st.cards.length - 1) (getCurrentIndexInFeed st + PRELOAD_AHEAD)

/-- The cards the above-window loop (lines 361-370) removes: among the cards
surviving the below-window removal, those with index below the window
start. -/
def removedAboveCards (st : FeedState) : List Card :=
  (st.cards.take (pruneHi st + 1)).take (pruneLo st)

/-- `removedAboveHeight` accumulated by the above-window loop (line 363). -/
def removedAboveHeight (st : FeedState) : Nat :=
  ((removedAboveCards st).map Card.height).sum

/-- `pruneAroundCurrent` (lines 340-375): remove cards after the window end
(no listener detach there), then remove cards before the window start,
detaching their outside-tap listeners and accumulating their heights, and
finally lower `scrollTop` by the accumulated height, clamped at 0. -/
def pruneAroundCurrent (st : FeedState) : FeedState :=
  if st.cards = [] then st
  else
    let cards2 := st.cards.take (pruneHi st + 1)
    let removed := cards2.take (pruneLo st)
    { cards := cards2.drop (pruneLo st)
      scrollTop :=
        if 0 < removedAboveHeight st then
          max 0 (st.scrollTop - (removedAboveHeight st : Int))
        else st.scrollTop
      clientHeight := st.clientHeight
      docListeners := st.docListeners.filter
        (fun hid => !(removed.any (fun c => c.handlerId == some hid))) }

/-- `offsetTop` of card `i` plus nothing: the summed heights of the cards
above it (stacked layout). -/
def offsetTopAt (cards : List Card) (i : Nat) : Int :=
  (((cards.take i).map Card.height).sum : Nat)

theorem scanBest_bound (mid2 : Int) :
    ∀ (cards : List Card) (top : Int) (i best : Nat) (bd : Option Nat),
      best < i → scanBest mid2 cards top i best bd < i + cards.length := by
  intro cards
  induction cards with
  | nil => intro top i best bd h; simpa [scanBest] using h
  | cons c rest ih =>
      intro top i best bd h
      cases bd with
      | none =>
          simp only [scanBest, List.length_cons]
          have := ih (top + (c.height : Int)) (i + 1) i
            (some ((2 * top + (c.height : Int) - mid2).natAbs)) (Nat.lt_succ_self i)
          omega
      | some b =>
          simp only [scanBest, List.length_cons]
          by_cases hd : (2 * top + (c.height : Int) - mid2).natAbs < b
          · rw [if_pos hd]
            have := ih (top + (c.height : Int)) (i + 1) i
              (some ((2 * top + (c.height : Int) - mid2).natAbs)) (Nat.lt_succ_self i)
            omega
          · rw [if_neg hd]
            have := ih (top + (c.height : Int)) (i + 1) best (some b) (by omega)
            omega

theorem getCurrentIndexInFeed_lt (st : FeedState) (h : st.cards ≠ []) :
    getCurrentIndexInFeed st < st.cards.length := by
  unfold getCurrentIndexInFeed
  rw [if_neg h]
  cases hc : st.cards with
  | nil => exact absurd hc h
  | cons c rest =>
      simp only [scanBest, List.length_cons]
      have := scanBest_bound (2 * st.scrollTop + st.clientHeight) rest
        ((0 : Int) + (c.height : Int)) (0 + 1) 0
        (some ((2 * 0 + (c.height : Int) - (2 * st.scrollTop + st.clientHeight)).natAbs))
        (by omega)
      omega

theorem idx_le_pruneHi (st : FeedState) (h : st.cards ≠ []) :
    getCurrentIndexInFeed st ≤ pruneHi st := by
  have hlt := getCurrentIndexInFeed_lt st h
  unfold pruneHi
  exact Nat.le_min.mpr ⟨by omega, by omega⟩

theorem pruneAroundCurrent_cards (st : FeedState) (h : st.cards ≠ []) :
    (pruneAroundCurrent st).cards =
      (st.cards.take (pruneHi st + 1)).drop (pruneLo st) := by
  unfold pruneAroundCurrent
  rw [if_neg h]

theorem pruneAroundCurrent_scrollTop (st : FeedState) (h : st.cards ≠ []) :
    (pruneAroundCurrent st).scrollTop =
      if 0 < removedAboveHeight st then
        max 0 (st.scrollTop - (removedAboveHeight st : Int))
      else st.scrollTop := by
  unfold pruneAroundCurrent
  rw [if_neg h]

theorem prune_cards_length (st : FeedState) :
    (pruneAroundCurrent st).cards.length ≤ KEEP_BEHIND + 1 + PRELOAD_AHEAD := by
  by_cases h : st.cards = []
  · unfold pruneAroundCurrent
    rw [if_pos h, h]
    simp [KEEP_BEHIND, PRELOAD_AHEAD]
  · rw [pruneAroundCurrent_cards st h]
    have hlt := getCurrentIndexInFeed_lt st h
    have h1 : pruneHi st ≤ getCurrentIndexInFeed st + PRELOAD_AHEAD := by
      unfold pruneHi
      exact Nat.min_le_right _ _
    have hlo : pruneLo st = getCurrentIndexInFeed st - KEEP_BEHIND := rfl
    simp only [List.length_drop, List.length_take]
    have h2 : min (pruneHi st + 1) st.cards.length ≤ pruneHi st + 1 :=
      Nat.min_le_left _ _
    rw [hlo]
    simp only [KEEP_BEHIND, PRELOAD_AHEAD] at *
    omega

theorem prune_cards_contiguous (st : FeedState) :
    (pruneAroundCurrent st).cards <:+: st.cards := by
  by_cases h : st.cards = []
  · unfold pruneAroundCurrent
    rw [if_pos h]
  · rw [pruneAroundCurrent_cards st h]
    exact List.IsInfix.trans
      ( List.IsSuffix.isInfix (List.drop_suffix _ _))
      ( List.IsPrefix.isInfix (List.take_prefix _ _))

theorem removedAboveCards_eq_take (st : FeedState) (h : st.cards ≠ []) :
    removedAboveCards st = st.cards.take (pruneLo st) := by
  unfold removedAboveCards
  rw [List.take_take]
  congr 1
  have h1 := idx_le_pruneHi st h
  have h2 : pruneLo st ≤ getCurrentIndexInFeed st := Nat.sub_le _ _
  exact Nat.min_eq_left (by omega)

theorem offsetTop_split (st : FeedState) (h : st.cards ≠ []) :
    offsetTopAt st.cards (getCurrentIndexInFeed st) =
      (removedAboveHeight st : Int) +
        offsetTopAt ((st.cards.take (pruneHi st + 1)).drop (pruneLo st))
          (getCurrentIndexInFeed st - pruneLo st) := by
  have h1 := idx_le_pruneHi st h
  have h2 : pruneLo st ≤ getCurrentIndexInFeed st := Nat.sub_le _ _
  have hkept : (st.cards.take (pruneHi st + 1)).drop (pruneLo st) =
      (st.cards.drop (pruneLo st)).take (pruneHi st + 1 - pruneLo st) :=
    List.drop_take _ _ _
  have htake : ((st.cards.take (pruneHi st + 1)).drop (pruneLo st)).take
      (getCurrentIndexInFeed st - pruneLo st) =
      (st.cards.drop (pruneLo st)).take (getCurrentIndexInFeed st - pruneLo st) := by
    rw [hkept, List.take_take, Nat.min_eq_left (by omega)]
  have key : ∀ (l : List Card) (lo i : Nat), lo ≤ i →
      ((l.take i).map Card.height).sum =
        ((l.take lo).map Card.height).sum +
          (((l.drop lo).take (i - lo)).map Card.height).sum := by
    intro l lo i hle
    nth_rewrite 1 [show i = lo + (i - lo) from by omega]
    rw [List.take_add, List.map_append, List.sum_append]
  unfold offsetTopAt removedAboveHeight
  rw [removedAboveCards_eq_take st h, htake]
  have hk := key st.cards (pruneLo st) (getCurrentIndexInFeed st) h2
  omega

/-- The concrete feed state refuting the unclamped offset-decrement claim:
13 cards of height 1 in a viewport of height 30 with `scrollTop` 0.  The
current card is index 12, the keep-window starts at 2, the two removed
above-window cards have total height 2, but `scrollTop` is already 0 and is
clamped, so it is not decremented by 2 and the offset relative to the
current card changes. -/
def clampFeedState : FeedState :=
  { cards := (List.range 13).map (fun i => { fetchIdx := i, height := 1, handlerId := none })
    scrollTop := 0
    clientHeight := 30
    docListeners := [] }

/-- A concrete feed state in which the clamp does not bite: 13 cards of
height 10, viewport height 10, `scrollTop` 120 (current card 12). -/
def plainFeedState : FeedState :=
  { cards := (List.range 13).map (fun i => { fetchIdx := i, height := 10, handlerId := none })
    scrollTop := 120
    clientHeight := 10
    docListeners := [] }

/-- A concrete feed state in which a card beyond the keep-window end owns a
registered outside-tap listener: 8 cards of height 100, viewport height 100,
`scrollTop` 0 (current card 0, keep-window 0-5), card 7 has listener id 7
registered on the document. -/
def leakFeedState : FeedState :=
  { cards := (List.range 8).map
      (fun i => { fetchIdx := i, height := 100,
                  handlerId := if i = 7 then some 7 else none })
    scrollTop := 0
    clientHeight := 100
    docListeners := [7] }

/-- C1, counterexample: at `clampFeedState` the prune removes above-window
cards of total height 2, but the scroll offset is not decremented by 2 (it
is clamped at 0), and the visual offset relative to the current card
changes. -/
theorem c1_prune_clamp_counterexample :
    removedAboveHeight clampFeedState = 2 ∧
    (pruneAroundCurrent clampFeedState).scrollTop ≠
      clampFeedState.scrollTop - (removedAboveHeight clampFeedState : Int) ∧
    (pruneAroundCurrent clampFeedState).scrollTop -
        offsetTopAt (pruneAroundCurrent clampFeedState).cards
          (getCurrentIndexInFeed clampFeedState - pruneLo clampFeedState) ≠
      clampFeedState.scrollTop -
        offsetTopAt clampFeedState.cards (getCurrentIndexInFeed clampFeedState) := by
  decide

/-- C1 (amended): for every prune on a non-empty feed whose scroll offset is
at least the total height of the removed above-window cards, the scroll
offset is decremented by exactly that accumulated height, and the visual
scroll offset relative to the (pre-prune) current card is unchanged; when
the offset is smaller, the code clamps the new offset at 0 instead. -/
theorem c1_prune_offset_preserved (st : FeedState) (h : st.cards ≠ [])
    (hs : (removedAboveHeight st : Int) ≤ st.scrollTop) :
    (pruneAroundCurrent st).scrollTop =
      st.scrollTop - (removedAboveHeight st : Int) ∧
    (pruneAroundCurrent st).scrollTop -
        offsetTopAt (pruneAroundCurrent st).cards
          (getCurrentIndexInFeed st - pruneLo st) =
      st.scrollTop - offsetTopAt st.cards (getCurrentIndexInFeed st) := by
  have hsc : (pruneAroundCurrent st).scrollTop =
      st.scrollTop - (removedAboveHeight st : Int) := by
    rw [pruneAroundCurrent_scrollTop st h]
    by_cases h0 : 0 < removedAboveHeight st
    · rw [if_pos h0]
      exact max_eq_right (by omega)
    · rw [if_neg h0]
      have hz : removedAboveHeight st = 0 := by omega
      rw [hz]
      simp
  refine ⟨hsc, ?_⟩
  rw [hsc, pruneAroundCurrent_cards st h]
  have hsplit := offsetTop_split st h
  omega

theorem c1_prune_offset_preserved_witness :
    (pruneAroundCurrent plainFeedState).scrollTop =
      plainFeedState.scrollTop - (removedAboveHeight plainFeedState : Int) ∧
    (pruneAroundCurrent plainFeedState).scrollTop -
        offsetTopAt (pruneAroundCurrent plainFeedState).cards
          (getCurrentIndexInFeed plainFeedState - pruneLo plainFeedState) =
      plainFeedState.scrollTop -
        offsetTopAt plainFeedState.cards (getCurrentIndexInFeed plainFeedState) :=
  c1_prune_offset_preserved plainFeedState (by decide) (by decide)

/-- C3: after every prune the number of rendered cards is at most
keep-behind + 1 + preload-ahead (10 + 1 + 5 = 16), and the rendered cards
are a contiguous sub-range (infix) of the pre-prune rendered cards — hence
of the posts fetched so far whenever the pre-prune rendered cards were a
contiguous sub-range of those. -/
theorem c3_prune_window (st : FeedState) (fetched : List Card)
    (hf : st.cards <:+: fetched) :
    (pruneAroundCurrent st).cards.length ≤ KEEP_BEHIND + 1 + PRELOAD_AHEAD ∧
    (pruneAroundCurrent st).cards <:+: st.cards ∧
    (pruneAroundCurrent st).cards <:+: fetched :=
  ⟨prune_cards_length st, prune_cards_contiguous st,
    List.IsInfix.trans (prune_cards_contiguous st) hf⟩

theorem c3_prune_window_witness :
    (pruneAroundCurrent plainFeedState).cards.length ≤
      KEEP_BEHIND + 1 + PRELOAD_AHEAD ∧
    (pruneAroundCurrent plainFeedState).cards <:+: plainFeedState.cards ∧
    (pruneAroundCurrent plainFeedState).cards <:+: plainFeedState.cards :=
  c3_prune_window plainFeedState plainFeedState.cards (List.infix_refl _)

/-- C9: at `leakFeedState` the prune removes card 7 (it lies beyond the
keep-window end), yet that card's registered outside-tap listener (id 7)
is still registered on the document afterwards: the below-window removal
loop (lines 351-355) does not detach listeners, contradicting the claim
that every removed card's listener is unregistered. -/
theorem c9_below_window_listener_leak :
    (∃ c ∈ leakFeedState.cards, c.handlerId = some 7) ∧
    (∀ c ∈ (pruneAroundCurrent leakFeedState).cards, c.handlerId ≠ some 7) ∧
    7 ∈ (pruneAroundCurrent leakFeedState).docListeners := by
  decide

/-!
Proxy server (`server.js`), comments endpoint (lines 138-230).  An upstream
response is a `FetchResp`: `netErr` models a rejected `fetch`/`text()`
promise (with `errMsg` the stringified exception), `json` the result of
`JSON.parse` on `text` (`none` = parse throws).  The fallback loop keeps
`lastErr` and returns the first candidate that survives; a thrown
`TypeError` (null payload, null comment element) is caught by the per-url
`catch` and recorded in the `{url, error}` shape, while non-success
statuses, parse failures and non-array shapes are recorded in the
`{url, status, contentType, snippet}` shape.  Avatar lookups are keyed by
the creator id value (`uO`).
-/

def AVATAR_LOOKUP_LIMIT : Nat := 10

structure FetchResp where
  netErr : Bool
  errMsg : String
  status : Nat
  contentType : Option String
  text : String
  json : Option Json
deriving DecidableEq

/-- `r.ok`: HTTP status in the 200-299 range. -/
def httpOk (r : FetchResp) : Bool := 200 ≤ r.status && r.status ≤ 299

/-- `String.prototype.toLowerCase`, modelled on the character list
(`String.toLower` maps `Char.toLower` over the characters). -/
def jsToLower (s : String) : String := ⟨s.data.map Char.toLower⟩

/-- `(r.headers.get('content-type') || '').toLowerCase()` (line 154). -/
def ctOf (r : FetchResp) : String := jsToLower (r.contentType.getD "")

/-- `text.slice(0, 250)` (line 158). -/
def snippetOf (r : FetchResp) : String := r.text.take 250

/-- A comment normalized by lines 177-183. -/
structure NormComment where
  id : Option Json
  body : Json
  creator_id : Json
  creator_name : Json
  avatar_url : Json
deriving DecidableEq

/-- Message of the `TypeError` thrown when the parsed payload is `null` and
`payload.comments` is read (line 170). -/
def nullPayloadMsg : String :=
  "TypeError: Cannot read properties of null (reading 'comments')"

/-- Message of the `TypeError` thrown when a comment among the first 50 is
`null` and `c.id` is read (line 178). -/
def nullCommentMsg : String :=
  "TypeError: Cannot read properties of null (reading 'id')"

/-- Normalization of one upstream comment (lines 177-183); `none` when the
element is `null`, making the `.map` callback's property reads throw. -/
def normalizeComment (c : Json) : Option NormComment :=
  match c with
  | .null => none
  | c => some
      { id := jsGet c "id"
        body := jsOrVal (jsGet c "body") (jsOrVal (jsGet c "body_html") (.str ""))
        creator_id := jsOrVal (jsGet c "creator_id") .null
        creator_name := jsOrVal (jsGet c "creator_name")
          (jsOrVal (jsGet c "author") (.str "Unknown"))
        avatar_url := .null }

/-- `limited.map(c => ...)` (line 177): the whole map throws (aborting this
fallback candidate) as soon as one element throws. -/
def normalizeAll : List Json → Option (List NormComment)
  | [] => some []
  | c :: cs =>
      match normalizeComment c with
      | none => none
      | some nc =>
          match normalizeAll cs with
          | none => none
          | some rest => some (nc :: rest)

/-- Structural worker for `dedupFirst`: emit each value not seen yet, in
order, remembering the values already emitted. -/
def dedupGo : List Json → List Json → List Json
  | [], _ => []
  | x :: xs, seen =>
      if x ∈ seen then dedupGo xs seen else x :: dedupGo xs (x :: seen)

/-- `Array.from(new Set(xs))` (line 186): deduplication keeping the first
occurrence of each value, in insertion order. -/
def dedupFirst (l : List Json) : List Json := dedupGo l []

/-- One avatar lookup (lines 192-206): `null` on any failure — network
error, non-success status, unparsable body, or `null` body (whose `user`
read throws, caught by the per-lookup `catch`); otherwise the first truthy
of `u?.avatar_url`, `u?.avatar?.url`, `u?.avatar`, else `null`, with `u`
being `uJson.user || uJson`. -/
def lookupAvatar (r : FetchResp) : Option Json :=
  if r.netErr then none
  else if !(httpOk r) then none
  else
    match r.json with
    | none => none
    | some .null => none
    | some uJson =>
        let u := jsOrVal (jsGet uJson "user") uJson
        let a1 := optChain (some u) "avatar_url"
        let a2 := optChain (optChain (some u) "avatar") "url"
        let a3 := optChain (some u) "avatar"
        if truthyO a1 then a1
        else if truthyO a2 then a2
        else if truthyO a3 then a3
        else none

/-- The creator ids looked up (lines 186-189): the truthy creator ids of
the normalized comments, deduplicated, capped at `AVATAR_LOOKUP_LIMIT`. -/
def avatarIdsOf (results : List NormComment) : List Json :=
  (dedupFirst ((results.map NormComment.creator_id).filter jsTruthy)).take
    AVATAR_LOOKUP_LIMIT

/-- The settled avatar batch (lines 192-208) as an association list keyed by
creator id; a value of `none` is a stored `null`. -/
def buildAvatarMap (uO : Json → FetchResp) (ids : List Json) :
    List (Json × Option Json) :=
  ids.map (fun i => (i, lookupAvatar (uO i)))

/-- `avatarMap[item.creator_id]` (line 210): key lookup by creator id value
(first entry wins; the keys are deduplicated anyway); an absent key
(`undefined`) and a stored `null` both collapse to `none`. -/
def mapLookup (m : List (Json × Option Json)) (k : Json) : Option Json :=
  match m with
  | [] => none
  | (k', v) :: rest =>
      if k' = k then
        match v with
        | some v' => some v'
        | none => none
      else mapLookup rest k

/-- Lines 209-213: overwrite `avatar_url` only when the comment has a truthy
creator id and the map holds a truthy value for it. -/
def mergeOne (m : List (Json × Option Json)) (item : NormComment) : NormComment :=
  if jsTruthy item.creator_id then
    match mapLookup m item.creator_id with
    | some v => if jsTruthy v then { item with avatar_url := v } else item
    | none => item
  else item

/-- Avatar enrichment (lines 185-214): skipped entirely when no ids. -/
def enrichAvatars (uO : Json → FetchResp) (results : List NormComment) :
    List NormComment :=
  let ids := avatarIdsOf results
  if ids = [] then results
  else results.map (mergeOne (buildAvatarMap uO ids))

/-- The two shapes `lastErr` takes: lines 158/166/172 record url, status,
content-type and a 250-character body snippet; line 218 records url and the
stringified exception. -/
inductive LastErr where
  | respErr (url : String) (status : Nat) (contentType : String) (snippet : String)
  | exnErr (url : String) (error : String)
deriving DecidableEq

def errUrlOf : LastErr → String
  | .respErr u _ _ _ => u
  | .exnErr u _ => u

/-- Whether the recorded diagnostic carries status, content-type and body
snippet (the `respErr` shape). -/
def lastErrHasDiag : LastErr → Bool
  | .respErr _ _ _ _ => true
  | .exnErr _ _ => false

inductive CandComments where
  | ok (l : List Json)
  | notArray
  | threwNull
deriving DecidableEq

/-- Lines 170-174: the candidate comments value is the payload itself when
it is an array, else `payload.comments || []` (throwing on a `null`
payload); a truthy non-array `comments` field fails the `Array.isArray`
check. -/
def candComments : Json → CandComments
  | .arr l => .ok l
  | .null => .threwNull
  | p =>
      match jsGet p "comments" with
      | some v =>
          if jsTruthy v then
            match v with
            | .arr l => CandComments.ok l
            | _ => CandComments.notArray
          else .ok []
      | none => .ok []

instance : DecidableEq (Except LastErr (List NormComment)) := fun a b =>
  match a, b with
  | .ok x, .ok y =>
      if h : x = y then isTrue (by rw [h])
      else isFalse (fun hh => h (by cases hh; rfl))
  | .error x, .error y =>
      if h : x = y then isTrue (by rw [h])
      else isFalse (fun hh => h (by cases hh; rfl))
  | .ok _, .error _ => isFalse (fun hh => by cases hh)
  | .error _, .ok _ => isFalse (fun hh => by cases hh)

/-- The body of the fallback loop for one candidate url (lines 152-219). -/
def processCandidate (uO : Json → FetchResp) (url : String) (r : FetchResp) :
    Except LastErr (List NormComment) :=
  if r.netErr then .error (.exnErr url r.errMsg)
  else if !(httpOk r) then .error (.respErr url r.status (ctOf r) (snippetOf r))
  else
    match r.json with
    | none => .error (.respErr url r.status (ctOf r) (snippetOf r))
    | some payload =>
        match candComments payload with
        | .threwNull => .error (.exnErr url nullPayloadMsg)
        | .notArray => .error (.respErr url r.status (ctOf r) (snippetOf r))
        | .ok l =>
            match normalizeAll (l.take 50) with
            | none => .error (.exnErr url nullCommentMsg)
            | some results => .ok (enrichAvatars uO results)

def commentUrl1 (postId : String) : String :=
  "https://e621.net/posts/" ++ postId ++ "/comments.json"

def commentUrl2 (postId : String) : String :=
  "https://e621.net/comments.json?post_id=" ++ postId

def commentUrl3 (postId : String) : String :=
  "https://e621.net/comments.json?search%5Bpost_id%5D=" ++ postId

/-- The ordered fallback urls (lines 142-146). -/
def commentUrls (postId : String) : List String :=
  [commentUrl1 postId, commentUrl2 postId, commentUrl3 postId]

/-- What the endpoint responds: the normalized (and avatar-enriched) list,
or 502 with the last recorded diagnostic. -/
inductive CommentsResult where
  | ok (comments : List NormComment)
  | err502 (debug : Option LastErr)
deriving DecidableEq

/-- The fallback loop (lines 149-225), threading `lastErr`. -/
def commentsLoop (fO : String → FetchResp) (uO : Json → FetchResp) :
    List String → Option LastErr → CommentsResult
  | [], last => .err502 last
  | url :: rest, last =>
      match processCandidate uO url (fO url) with
      | .ok cs => .ok cs
      | .error e => commentsLoop fO uO rest (some e)

/-- `GET /api/comments/:postId` (lines 138-230) against upstream oracles
`fO` (comment urls) and `uO` (user lookups by creator id). -/
def handleComments (fO : String → FetchResp) (uO : Json → FetchResp)
    (postId : String) : CommentsResult :=
  commentsLoop fO uO (commentUrls postId) none

/-- C2's stated rejection condition, written from the claim: non-success
status, or unparsable body, or a parsed body that is neither an array nor
an object with a "comments" array field. -/
def claimReject (r : FetchResp) : Bool :=
  !(httpOk r) ||
  match r.json with
  | none => true
  | some (.arr _) => false
  | some p =>
      match jsGet p "comments" with
      | some (.arr _) => false
      | _ => true

/-- The rejection condition the code actually implements (the amended
claim): a thrown request, non-success status, unparsable body, `null`
payload, a candidate comments value that is not an array, or a `null`
comment among the first 50. -/
def rejectSpec (r : FetchResp) : Bool :=
  r.netErr || !(httpOk r) ||
  match r.json with
  | none => true
  | some p =>
      match candComments p with
      | .ok l => (l.take 50).any (fun c => c = .null)
      | _ => true

/-- Which rejections record the response-shaped diagnostic (status,
content-type, snippet): everything except a thrown request, a `null`
payload, or a `null` comment element. -/
def respShapedReject (r : FetchResp) : Bool :=
  !r.netErr &&
  (!(httpOk r) ||
   match r.json with
   | none => true
   | some p =>
       match candComments p with
       | .notArray => true
       | _ => false)

/-- Claim-side creator-name formula: upstream `creator_name`, else the
alternate `author` field, else `"Unknown"`. -/
def specCreatorName (c : Json) : Json :=
  if truthyO (jsGet c "creator_name") then (jsGet c "creator_name").getD .null
  else if truthyO (jsGet c "author") then (jsGet c "author").getD .null
  else .str "Unknown"

/-- Claim-side body formula: upstream `body`, else the alternate `body_html`
field, else the empty string. -/
def specBody (c : Json) : Json :=
  if truthyO (jsGet c "body") then (jsGet c "body").getD .null
  else if truthyO (jsGet c "body_html") then (jsGet c "body_html").getD .null
  else .str ""

theorem normalizeComment_eq_none_iff (c : Json) :
    normalizeComment c = none ↔ c = .null := by
  cases c <;> simp [normalizeComment]

theorem normalizeComment_of_ne_null (c : Json) (hc : c ≠ .null) :
    normalizeComment c = some
      { id := jsGet c "id"
        body := jsOrVal (jsGet c "body") (jsOrVal (jsGet c "body_html") (.str ""))
        creator_id := jsOrVal (jsGet c "creator_id") .null
        creator_name := jsOrVal (jsGet c "creator_name")
          (jsOrVal (jsGet c "author") (.str "Unknown"))
        avatar_url := .null } := by
  cases c
  · exact absurd rfl hc
  all_goals rfl

theorem normalizeAll_eq_none_iff (l : List Json) :
    normalizeAll l = none ↔ l.any (fun c => c = .null) = true := by
  induction l with
  | nil => simp [normalizeAll]
  | cons c cs ih =>
      by_cases hc : c = .null
      · subst hc
        simp [normalizeAll, normalizeComment]
      · obtain ⟨nc, hnc⟩ : ∃ nc, normalizeComment c = some nc := by
          cases hh : normalizeComment c with
          | none => exact absurd ((normalizeComment_eq_none_iff c).mp hh) hc
          | some nc => exact ⟨nc, rfl⟩
        simp only [normalizeAll, hnc, List.any_cons]
        cases hrest : normalizeAll cs with
        | none =>
            have hany := ih.mp hrest
            simp [hany]
        | some rest =>
            have hany : cs.any (fun c => c = .null) = false := by
              cases hh : cs.any (fun c => c = .null) with
              | false => rfl
              | true =>
                  rw [ih.mpr hh] at hrest
                  cases hrest
            simp [hany, hc]

theorem normalizeAll_some (l : List Json) (res : List NormComment)
    (h : normalizeAll l = some res) :
    res.length = l.length ∧
      ∀ nc ∈ res, ∃ c ∈ l, normalizeComment c = some nc := by
  induction l generalizing res with
  | nil =>
      simp only [normalizeAll, Option.some.injEq] at h
      subst h
      simp
  | cons c cs ih =>
      simp only [normalizeAll] at h
      cases hc : normalizeComment c with
      | none => rw [hc] at h; cases h
      | some nc =>
          rw [hc] at h
          cases hrest : normalizeAll cs with
          | none => rw [hrest] at h; cases h
          | some rest =>
              rw [hrest] at h
              simp only [Option.some.injEq] at h
              subst h
              obtain ⟨hlen, hmem⟩ := ih rest hrest
              refine ⟨by simp [hlen], ?_⟩
              intro x hx
              rcases List.mem_cons.mp hx with rfl | hx
              · exact ⟨c, by simp, hc⟩
              · obtain ⟨c', hc', hn'⟩ := hmem x hx
                exact ⟨c', by simp [hc'], hn'⟩

theorem normalizeAll_some_pointwise (l : List Json) (res : List NormComment)
    (h : normalizeAll l = some res) :
    res.length = l.length ∧
      ∀ (k : Nat) (hk : k < l.length) (hk2 : k < res.length),
        normalizeComment (l[k]) = some (res[k]) := by
  induction l generalizing res with
  | nil =>
      simp only [normalizeAll, Option.some.injEq] at h
      subst h
      exact ⟨rfl, fun k hk hk2 => absurd hk (by simp)⟩
  | cons c cs ih =>
      simp only [normalizeAll] at h
      cases hc : normalizeComment c with
      | none => rw [hc] at h; cases h
      | some nc =>
          rw [hc] at h
          cases hrest : normalizeAll cs with
          | none => rw [hrest] at h; cases h
          | some rest =>
              rw [hrest] at h
              simp only [Option.some.injEq] at h
              subst h
              obtain ⟨hlen, hpt⟩ := ih rest hrest
              refine ⟨by simp [hlen], ?_⟩
              intro k hk hk2
              cases k with
              | zero => simpa using hc
              | succ k2 =>
                  simp only [List.getElem_cons_succ]
                  exact hpt k2 (by simpa using hk) (by simpa using hk2)

theorem jsOrVal_chain (a b : Option Json) (d : Json) :
    jsOrVal a (jsOrVal b d) =
      if truthyO a then a.getD .null
      else if truthyO b then b.getD .null else d := by
  cases a with
  | none =>
      cases b with
      | none => simp [jsOrVal, truthyO]
      | some v => by_cases hv : jsTruthy v <;> simp [jsOrVal, truthyO, hv]
  | some v =>
      by_cases hv : jsTruthy v
      · simp [jsOrVal, truthyO, hv]
      · cases b with
        | none => simp [jsOrVal, truthyO, hv]
        | some w => by_cases hw : jsTruthy w <;> simp [jsOrVal, truthyO, hv, hw]

theorem normalizeComment_fields (c : Json) (nc : NormComment)
    (h : normalizeComment c = some nc) :
    nc.creator_name = specCreatorName c ∧ nc.body = specBody c ∧
      nc.avatar_url = .null := by
  have hc : c ≠ .null := by
    intro hcn
    subst hcn
    simp [normalizeComment] at h
  rw [normalizeComment_of_ne_null c hc, Option.some.injEq] at h
  subst h
  refine ⟨?_, ?_, rfl⟩
  · show jsOrVal (jsGet c "creator_name")
        (jsOrVal (jsGet c "author") (.str "Unknown")) = specCreatorName c
    unfold specCreatorName
    exact jsOrVal_chain _ _ _
  · show jsOrVal (jsGet c "body")
        (jsOrVal (jsGet c "body_html") (.str "")) = specBody c
    unfold specBody
    exact jsOrVal_chain _ _ _

theorem truthyO_getD_ne_empty {o : Option Json} (h : truthyO o = true) :
    o.getD .null ≠ .str "" := by
  cases o with
  | none => simp [truthyO] at h
  | some v => exact jsTruthy_ne_empty_str (by simpa [truthyO] using h)

theorem specCreatorName_ne_empty (c : Json) : specCreatorName c ≠ .str "" := by
  unfold specCreatorName
  split_ifs with h1 h2
  · exact truthyO_getD_ne_empty h1
  · exact truthyO_getD_ne_empty h2
  · decide

theorem dedupGo_subset (l : List Json) :
    ∀ seen, ∀ x ∈ dedupGo l seen, x ∈ l := by
  induction l with
  | nil => intro seen x hx; simp [dedupGo] at hx
  | cons y ys ih =>
      intro seen x hx
      unfold dedupGo at hx
      by_cases hy : y ∈ seen
      · rw [if_pos hy] at hx
        exact List.mem_cons_of_mem _ (ih seen x hx)
      · rw [if_neg hy] at hx
        rcases List.mem_cons.mp hx with rfl | hx
        · simp
        · exact List.mem_cons_of_mem _ (ih (y :: seen) x hx)

theorem dedupGo_nodup (l : List Json) :
    ∀ seen, (dedupGo l seen).Nodup ∧ ∀ x ∈ dedupGo l seen, x ∉ seen := by
  induction l with
  | nil => intro seen; simp [dedupGo]
  | cons y ys ih =>
      intro seen
      unfold dedupGo
      by_cases hy : y ∈ seen
      · rw [if_pos hy]
        exact ih seen
      · rw [if_neg hy]
        obtain ⟨hnd, hout⟩ := ih (y :: seen)
        refine ⟨List.nodup_cons.mpr ⟨?_, hnd⟩, ?_⟩
        · intro hmem
          exact (hout y hmem) (by simp)
        · intro x hx
          rcases List.mem_cons.mp hx with rfl | hx
          · exact hy
          · intro hxs
            exact (hout x hx) (List.mem_cons_of_mem _ hxs)

theorem dedupFirst_subset (l : List Json) : ∀ x ∈ dedupFirst l, x ∈ l :=
  dedupGo_subset l []

theorem dedupFirst_nodup (l : List Json) : (dedupFirst l).Nodup :=
  (dedupGo_nodup l []).1

theorem avatarIdsOf_nodup (results : List NormComment) :
    (avatarIdsOf results).Nodup :=
  List.Nodup.sublist (List.take_sublist _ _) (dedupFirst_nodup _)

theorem avatarIdsOf_length (results : List NormComment) :
    (avatarIdsOf results).length ≤ AVATAR_LOOKUP_LIMIT := by
  unfold avatarIdsOf
  exact List.length_take_le _ _

theorem avatarIdsOf_mem (results : List NormComment) :
    ∀ y ∈ avatarIdsOf results,
      jsTruthy y = true ∧ y ∈ results.map NormComment.creator_id := by
  intro y hy
  unfold avatarIdsOf at hy
  have h1 : y ∈ dedupFirst ((results.map NormComment.creator_id).filter jsTruthy) :=
    List.take_subset _ _ hy
  have h2 := dedupFirst_subset _ _ h1
  have h3 := List.mem_filter.mp h2
  exact ⟨h3.2, h3.1⟩

theorem mapLookup_build (o : Json → FetchResp) (ids : List Json) (k : Json) :
    mapLookup (buildAvatarMap o ids) k =
      if k ∈ ids then lookupAvatar (o k) else none := by
  induction ids with
  | nil => simp [mapLookup, buildAvatarMap]
  | cons i rest ih =>
      simp only [buildAvatarMap, List.map_cons, mapLookup]
      by_cases hik : i = k
      · subst hik
        cases lookupAvatar (o i) <;> simp
      · have hk : ¬ k = i := fun hh => hik hh.symm
        simp only [if_neg hik, List.mem_cons, hk, false_or]
        simpa [buildAvatarMap] using ih

theorem mergeOne_preserves (m : List (Json × Option Json)) (item : NormComment) :
    (mergeOne m item).creator_name = item.creator_name ∧
    (mergeOne m item).body = item.body ∧
    (mergeOne m item).creator_id = item.creator_id := by
  unfold mergeOne
  by_cases h : jsTruthy item.creator_id
  · simp only [h, if_true]
    cases mapLookup m item.creator_id with
    | none => exact ⟨rfl, rfl, rfl⟩
    | some v =>
        by_cases hv : jsTruthy v <;> simp [hv]
  · simp [h]

theorem enrichAvatars_length (uO : Json → FetchResp) (results : List NormComment) :
    (enrichAvatars uO results).length = results.length := by
  unfold enrichAvatars
  by_cases h : avatarIdsOf results = [] <;> simp [h]

theorem enrichAvatars_fields (uO : Json → FetchResp) (results : List NormComment) :
    ∀ x ∈ enrichAvatars uO results, ∃ item ∈ results,
      x.creator_name = item.creator_name ∧ x.body = item.body := by
  unfold enrichAvatars
  by_cases h : avatarIdsOf results = []
  · simp only [h, if_pos]
    intro x hx
    exact ⟨x, by simpa using hx, rfl, rfl⟩
  · simp only [h, if_neg, if_false]
    intro x hx
    rcases List.mem_map.mp (by simpa using hx) with ⟨item, hm, rfl⟩
    obtain ⟨h1, h2, _⟩ := mergeOne_preserves (buildAvatarMap uO (avatarIdsOf results)) item
    exact ⟨item, hm, h1, h2⟩

theorem enrichAvatars_getElem_fields (uO : Json → FetchResp)
    (results : List NormComment) (k : Nat)
    (hk : k < (enrichAvatars uO results).length) (hk2 : k < results.length) :
    ((enrichAvatars uO results)[k]).creator_name = (results[k]).creator_name ∧
    ((enrichAvatars uO results)[k]).body = (results[k]).body := by
  unfold enrichAvatars at hk ⊢
  by_cases hids : avatarIdsOf results = []
  · simp only [hids, if_pos]
    exact ⟨by trivial, by trivial⟩
  · simp only [hids, if_neg, if_false, List.getElem_map]
    obtain ⟨h1, h2, _⟩ :=
      mergeOne_preserves (buildAvatarMap uO (avatarIdsOf results)) (results[k])
    exact ⟨h1, h2⟩

theorem processCandidate_ok_iff (uO : Json → FetchResp) (url : String)
    (r : FetchResp) :
    (∃ cs, processCandidate uO url r = .ok cs) ↔ rejectSpec r = false := by
  unfold processCandidate rejectSpec
  cases hn : r.netErr with
  | true => simp
  | false =>
      simp only [Bool.false_or, if_neg (by simp : ¬ (false = true))]
      cases ho : httpOk r with
      | false => simp
      | true =>
          simp only [Bool.not_true, Bool.false_or,
            if_neg (by simp : ¬ (!true = true))]
          cases hj : r.json with
          | none => simp
          | some payload =>
              cases hc : candComments payload with
              | threwNull => simp [hc]
              | notArray => simp [hc]
              | ok l =>
                  cases hna : normalizeAll (l.take 50) with
                  | none =>
                      have hany := (normalizeAll_eq_none_iff _).mp hna
                      simp [hc, hna, hany]
                  | some results =>
                      have hany : (l.take 50).any (fun c => c = .null) = false := by
                        cases hh : (l.take 50).any (fun c => c = .null) with
                        | false => rfl
                        | true =>
                            rw [(normalizeAll_eq_none_iff _).mpr hh] at hna
                            cases hna
                      simp [hc, hna, hany]

theorem processCandidate_ok_elim (uO : Json → FetchResp) (url : String)
    (r : FetchResp) (cs : List NormComment)
    (h : processCandidate uO url r = .ok cs) :
    ∃ (payload : Json) (l : List Json) (results : List NormComment),
      r.json = some payload ∧ candComments payload = .ok l ∧
      normalizeAll (l.take 50) = some results ∧ cs = enrichAvatars uO results := by
  unfold processCandidate at h
  cases hn : r.netErr with
  | true => simp [hn] at h
  | false =>
      simp only [hn, if_neg (by simp : ¬ (false = true))] at h
      cases ho : httpOk r with
      | false => simp [ho] at h
      | true =>
          simp only [ho, Bool.not_true, if_neg (by simp : ¬ (false = true))] at h
          cases hj : r.json with
          | none => simp [hj] at h
          | some payload =>
              simp only [hj] at h
              cases hc : candComments payload with
              | threwNull => simp [hc] at h
              | notArray => simp [hc] at h
              | ok l =>
                  simp only [hc] at h
                  cases hna : normalizeAll (l.take 50) with
                  | none => simp [hna] at h
                  | some results =>
                      simp only [hna, Except.ok.injEq] at h
                      exact ⟨payload, l, results, rfl, hc, hna, h.symm⟩

theorem commentsLoop_ok_mem (fO : String → FetchResp) (uO : Json → FetchResp) :
    ∀ (urls : List String) (last : Option LastErr) (cs : List NormComment),
      commentsLoop fO uO urls last = .ok cs →
      ∃ url ∈ urls, processCandidate uO url (fO url) = .ok cs := by
  intro urls
  induction urls with
  | nil => intro last cs h; simp [commentsLoop] at h
  | cons u rest ih =>
      intro last cs h
      cases hp : processCandidate uO u (fO u) with
      | ok cs' =>
          simp only [commentsLoop, hp] at h
          cases h
          exact ⟨u, by simp, hp⟩
      | error e =>
          simp only [commentsLoop, hp] at h
          obtain ⟨url, hm, hok⟩ := ih (some e) cs h
          exact ⟨url, by simp [hm], hok⟩

theorem commentsLoop_first_ok (fO : String → FetchResp) (uO : Json → FetchResp) :
    ∀ (pre : List String) (url : String) (post : List String)
      (last : Option LastErr) (cs : List NormComment),
      (∀ v ∈ pre, rejectSpec (fO v) = true) →
      processCandidate uO url (fO url) = .ok cs →
      commentsLoop fO uO (pre ++ url :: post) last = .ok cs := by
  intro pre
  induction pre with
  | nil =>
      intro url post last cs _ hok
      simp [commentsLoop, hok]
  | cons v rest ih =>
      intro url post last cs hpre hok
      have hv : rejectSpec (fO v) = true := hpre v (by simp)
      obtain ⟨e, he⟩ : ∃ e, processCandidate uO v (fO v) = .error e := by
        cases hp : processCandidate uO v (fO v) with
        | ok cs' =>
            have := (processCandidate_ok_iff uO v (fO v)).mp ⟨cs', hp⟩
            rw [hv] at this
            cases this
        | error e => exact ⟨e, rfl⟩
      simp only [List.cons_append, commentsLoop, he]
      exact ih url post (some e) cs (fun x hx => hpre x (by simp [hx])) hok

theorem processCandidate_error_shape (uO : Json → FetchResp) (url : String)
    (r : FetchResp) (hrej : rejectSpec r = true) :
    ∃ e, processCandidate uO url r = .error e ∧ errUrlOf e = url ∧
      (respShapedReject r = true →
        e = .respErr url r.status (ctOf r) (snippetOf r)) ∧
      (respShapedReject r = false → ∃ m, e = .exnErr url m) := by
  unfold processCandidate respShapedReject
  cases hn : r.netErr with
  | true =>
      refine ⟨.exnErr url r.errMsg, by simp, rfl, ?_, fun _ => ⟨r.errMsg, rfl⟩⟩
      intro hcontra
      simp at hcontra
  | false =>
      simp only [if_neg (by simp : ¬ (false = true)), Bool.not_false, Bool.true_and]
      cases ho : httpOk r with
      | false =>
          exact ⟨.respErr url r.status (ctOf r) (snippetOf r), by simp, rfl,
            fun _ => rfl, fun hcontra => by simp at hcontra⟩
      | true =>
          simp only [Bool.not_true, if_neg (by simp : ¬ (false = true)),
            Bool.false_or]
          cases hj : r.json with
          | none => exact ⟨.respErr url r.status (ctOf r) (snippetOf r), by simp, rfl,
              fun _ => rfl, fun hcontra => by simp at hcontra⟩
          | some payload =>
              cases hc : candComments payload with
              | threwNull =>
                  refine ⟨.exnErr url nullPayloadMsg, by simp [hc], rfl, ?_,
                    fun _ => ⟨nullPayloadMsg, rfl⟩⟩
                  intro hcontra
                  simp [hc] at hcontra
              | notArray =>
                  refine ⟨.respErr url r.status (ctOf r) (snippetOf r),
                    by simp [hc], rfl, fun _ => rfl, ?_⟩
                  intro hcontra
                  simp [hc] at hcontra
              | ok l =>
                  have hany : (l.take 50).any (fun c => c = .null) = true := by
                    rw [rejectSpec] at hrej
                    rw [hn, ho, hj] at hrej
                    simpa [hc] using hrej
                  have hna := (normalizeAll_eq_none_iff (l.take 50)).mpr hany
                  refine ⟨.exnErr url nullCommentMsg, by simp [hc, hna], rfl, ?_,
                    fun _ => ⟨nullCommentMsg, rfl⟩⟩
                  intro hcontra
                  simp [hc] at hcontra

/-- A rejected `fetch` promise (network failure). -/
def netFailResp : FetchResp :=
  { netErr := true, errMsg := "TypeError: fetch failed", status := 0,
    contentType := none, text := "", json := none }

/-- A 404 HTML upstream answer. -/
def notFoundResp : FetchResp :=
  { netErr := false, errMsg := "", status := 404,
    contentType := some "text/html", text := "not found", json := none }

/-- An OK answer whose JSON body is an object with no fields at all. -/
def emptyObjResp : FetchResp :=
  { netErr := false, errMsg := "", status := 200,
    contentType := some "application/json", text := "\x7b\x7d",
    json := some (.obj []) }

/-- An OK answer carrying one comment, the spec's scenario comment. -/
def goodCommentResp : FetchResp :=
  { netErr := false, errMsg := "", status := 200,
    contentType := some "application/json",
    text := "[\x7b\x22id\x22:9,\x22body\x22:\x22hi\x22,\x22creator_id\x22:5\x7d]",
    json := some (.arr
      [.obj [("id", .num 9), ("body", .str "hi"), ("creator_id", .num 5)]]) }

/-- An OK user-endpoint answer with a nested avatar url. -/
def goodUserResp : FetchResp :=
  { netErr := false, errMsg := "", status := 200,
    contentType := some "application/json",
    text := "\x7b\x22user\x22:\x7b\x22avatar_url\x22:\x22a.png\x22\x7d\x7d",
    json := some (.obj [("user", .obj [("avatar_url", .str "a.png")])]) }

/-- The spec scenario's normalized comment (avatar lookup failed). -/
def goodNorm : NormComment :=
  { id := some (.num 9), body := .str "hi", creator_id := .num 5,
    creator_name := .str "Unknown", avatar_url := .null }

def goodFetchO : String → FetchResp := fun _ => goodCommentResp

def netUserO : Json → FetchResp := fun _ => netFailResp

def goodUserO : Json → FetchResp := fun _ => goodUserResp

/-- A user oracle failing exactly for creator id 5. -/
def failAtFiveUserO : Json → FetchResp :=
  fun y => if y = Json.num 5 then netFailResp else goodUserResp

/-- First comment url answers with the empty object, later urls with the
good comment. -/
def cxFetchO : String → FetchResp :=
  fun u => if u = commentUrl1 "1" then emptyObjResp else goodCommentResp

def allNetFailO : String → FetchResp := fun _ => netFailResp

def all404O : String → FetchResp := fun _ => notFoundResp

/-- C2, counterexample: an OK response whose body is an object with no
"comments" field satisfies the claim's rejection condition (it is neither
an array nor an object with a "comments" array field), yet the code accepts
it as the empty comment list at the first candidate and never reaches the
second candidate, which would have yielded a comment. -/
theorem c2_object_without_comments_counterexample :
    claimReject emptyObjResp = true ∧
    handleComments cxFetchO netUserO "1" = .ok [] ∧
    processCandidate netUserO (commentUrl2 "1") (cxFetchO (commentUrl2 "1")) =
      .ok [goodNorm] := by
  decide

/-- C2 (amended): a candidate is accepted exactly when it does not throw,
its status is a success, its body parses, the candidate comments value (the
payload if an array, else the payload's truthy "comments" field, else the
empty array) is an array, and no comment among the first 50 is null — in
particular an object without a truthy "comments" field is accepted with the
empty list; the first acceptable candidate's result is used, and the
response does not depend on the responses of the candidates after it. -/
theorem c2_comment_fallback (fO fO' : String → FetchResp)
    (uO : Json → FetchResp) (postId : String) (pre post : List String)
    (url : String)
    (hsplit : commentUrls postId = pre ++ url :: post)
    (hpre : ∀ v ∈ pre, rejectSpec (fO v) = true)
    (hurl : rejectSpec (fO url) = false)
    (hagree : ∀ v ∈ pre, fO' v = fO v) (hagreeu : fO' url = fO url) :
    (∀ (rr : FetchResp) (u : String),
      (∃ cs, processCandidate uO u rr = .ok cs) ↔ rejectSpec rr = false) ∧
    ∃ cs, processCandidate uO url (fO url) = .ok cs ∧
      handleComments fO uO postId = .ok cs ∧
      handleComments fO' uO postId = .ok cs := by
  refine ⟨fun rr u => processCandidate_ok_iff uO u rr, ?_⟩
  obtain ⟨cs, hcs⟩ := (processCandidate_ok_iff uO url (fO url)).mpr hurl
  refine ⟨cs, hcs, ?_, ?_⟩
  · unfold handleComments
    rw [hsplit]
    exact commentsLoop_first_ok fO uO pre url post none cs hpre hcs
  · unfold handleComments
    rw [hsplit]
    apply commentsLoop_first_ok fO' uO pre url post none cs
    · intro v hv
      rw [hagree v hv]
      exact hpre v hv
    · rw [hagreeu]
      exact hcs

theorem c2_comment_fallback_witness :
    (∀ (rr : FetchResp) (u : String),
      (∃ cs, processCandidate netUserO u rr = .ok cs) ↔ rejectSpec rr = false) ∧
    ∃ cs, processCandidate netUserO (commentUrl1 "1")
        (goodFetchO (commentUrl1 "1")) = .ok cs ∧
      handleComments goodFetchO netUserO "1" = .ok cs ∧
      handleComments goodFetchO netUserO "1" = .ok cs :=
  c2_comment_fallback goodFetchO goodFetchO netUserO "1" []
    [commentUrl2 "1", commentUrl3 "1"] (commentUrl1 "1") rfl
    (by simp) (by decide) (by simp) rfl

/-- C4: every successful comments response comes from an accepted
candidate's parsed payload, whose comments list is truncated to the first
50 entries; each response entry's creator name and body equal the claimed
fallback formulas applied to the upstream comment at the same position
(creator name falling back to the alternate author field, else "Unknown";
body to the alternate body field, else the empty string) — so the response
has at most 50 entries and no entry's creator name is the empty string. -/
theorem c4_comment_normalization (fO : String → FetchResp)
    (uO : Json → FetchResp) (postId : String) (cs : List NormComment)
    (h : handleComments fO uO postId = .ok cs) :
    cs.length ≤ 50 ∧
    ∃ url ∈ commentUrls postId, ∃ (payload : Json) (l : List Json),
      (fO url).json = some payload ∧ candComments payload = .ok l ∧
      cs.length = (l.take 50).length ∧
      ∀ (k : Nat) (hk : k < (l.take 50).length) (hk2 : k < cs.length),
        (cs[k]).creator_name = specCreatorName ((l.take 50)[k]) ∧
        (cs[k]).body = specBody ((l.take 50)[k]) ∧
        (cs[k]).creator_name ≠ .str "" := by
  obtain ⟨url, hmem, hok⟩ := commentsLoop_ok_mem fO uO (commentUrls postId) none cs h
  obtain ⟨payload, l, results, hj, hcc, hna, rfl⟩ :=
    processCandidate_ok_elim uO url (fO url) cs hok
  obtain ⟨hlen, hpt⟩ := normalizeAll_some_pointwise _ _ hna
  have hclen : (enrichAvatars uO results).length = (l.take 50).length := by
    rw [enrichAvatars_length, hlen]
  refine ⟨?_, url, hmem, payload, l, hj, hcc, hclen, ?_⟩
  · rw [hclen]
    exact List.length_take_le _ _
  · intro k hk hk2
    have hkr : k < results.length := by
      rw [enrichAvatars_length] at hk2
      exact hk2
    obtain ⟨hn1, hn2⟩ := enrichAvatars_getElem_fields uO results k hk2 hkr
    have hnc := hpt k hk hkr
    obtain ⟨f1, f2, _⟩ := normalizeComment_fields _ _ hnc
    refine ⟨by rw [hn1, f1], by rw [hn2, f2], ?_⟩
    rw [hn1, f1]
    exact specCreatorName_ne_empty _

theorem c4_comment_normalization_witness :
    ([goodNorm].length ≤ 50 ∧
    ∃ url ∈ commentUrls "1", ∃ (payload : Json) (l : List Json),
      (goodFetchO url).json = some payload ∧ candComments payload = .ok l ∧
      [goodNorm].length = (l.take 50).length ∧
      ∀ (k : Nat) (hk : k < (l.take 50).length) (hk2 : k < [goodNorm].length),
        ([goodNorm][k]).creator_name = specCreatorName ((l.take 50)[k]) ∧
        ([goodNorm][k]).body = specBody ((l.take 50)[k]) ∧
        ([goodNorm][k]).creator_name ≠ .str "") :=
  c4_comment_normalization goodFetchO netUserO "1" [goodNorm] (by decide)

/-- C5: the creator ids looked up are distinct truthy creator ids of the
normalized comments, capped at 10; and when the lookup for one id fails
(yields null) while the oracle is unchanged elsewhere, the comments bearing
that id keep a null avatar while every other comment's enrichment is
unchanged, and the batch still produces a full-length result. -/
theorem c5_avatar_isolation (results : List NormComment)
    (o o' : Json → FetchResp) (x : Json)
    (hinit : ∀ nc ∈ results, nc.avatar_url = .null)
    (hagree : ∀ y : Json, y ≠ x → o' y = o y)
    (hfail : lookupAvatar (o' x) = none) :
    ((avatarIdsOf results).Nodup ∧
      (avatarIdsOf results).length ≤ AVATAR_LOOKUP_LIMIT ∧
      ∀ y ∈ avatarIdsOf results,
        jsTruthy y = true ∧ y ∈ results.map NormComment.creator_id) ∧
    (enrichAvatars o' results).length = results.length ∧
    ∀ (k : Nat) (hk : k < results.length)
      (hk' : k < (enrichAvatars o' results).length)
      (hk2 : k < (enrichAvatars o results).length),
      ((results[k]).creator_id = x →
        ((enrichAvatars o' results)[k]).avatar_url = .null) ∧
      ((results[k]).creator_id ≠ x →
        (enrichAvatars o' results)[k] = (enrichAvatars o results)[k]) := by
  refine ⟨⟨avatarIdsOf_nodup results, avatarIdsOf_length results,
    avatarIdsOf_mem results⟩, enrichAvatars_length o' results, ?_⟩
  intro k hk hk' hk2
  unfold enrichAvatars at hk' hk2 ⊢
  by_cases hids : avatarIdsOf results = []
  · simp only [hids, if_pos]
    exact ⟨fun _ => hinit _ (List.getElem_mem hk),
      fun _ => by trivial⟩
  · simp only [hids, if_neg, if_false, List.getElem_map]
    constructor
    · intro hcid
      unfold mergeOne
      rw [hcid, mapLookup_build]
      by_cases htr : jsTruthy x
      · simp only [htr, if_true]
        by_cases hxid : x ∈ avatarIdsOf results
        · simp only [hxid, if_pos, hfail]
          exact hinit _ (List.getElem_mem hk)
        · simp only [hxid, if_neg, if_false]
          exact hinit _ (List.getElem_mem hk)
      · simp only [htr, if_false]
        exact hinit _ (List.getElem_mem hk)
    · intro hcid
      unfold mergeOne
      rw [mapLookup_build, mapLookup_build, hagree _ hcid]

theorem c5_avatar_isolation_witness :
    ((avatarIdsOf [goodNorm]).Nodup ∧
      (avatarIdsOf [goodNorm]).length ≤ AVATAR_LOOKUP_LIMIT ∧
      ∀ y ∈ avatarIdsOf [goodNorm],
        jsTruthy y = true ∧ y ∈ [goodNorm].map NormComment.creator_id) ∧
    (enrichAvatars failAtFiveUserO [goodNorm]).length = [goodNorm].length ∧
    ∀ (k : Nat) (hk : k < [goodNorm].length)
      (hk' : k < (enrichAvatars failAtFiveUserO [goodNorm]).length)
      (hk2 : k < (enrichAvatars goodUserO [goodNorm]).length),
      (([goodNorm][k]).creator_id = Json.num 5 →
        ((enrichAvatars failAtFiveUserO [goodNorm])[k]).avatar_url = .null) ∧
      (([goodNorm][k]).creator_id ≠ Json.num 5 →
        (enrichAvatars failAtFiveUserO [goodNorm])[k] =
          (enrichAvatars goodUserO [goodNorm])[k]) :=
  c5_avatar_isolation [goodNorm] goodUserO failAtFiveUserO (Json.num 5)
    (by decide)
    (by
      intro y hy
      unfold failAtFiveUserO goodUserO
      rw [if_neg hy])
    (by decide)

/-- C6, counterexample: when every candidate throws (network failure), the
endpoint does respond 502, but the recorded diagnostic about the last
candidate has the exception shape — only the url and an error string — and
carries no HTTP status, content-type or body snippet, contrary to the
claim. -/
theorem c6_exception_diagnostic_counterexample :
    handleComments allNetFailO netUserO "1" =
      .err502 (some (.exnErr (commentUrl3 "1") "TypeError: fetch failed")) ∧
    lastErrHasDiag (.exnErr (commentUrl3 "1") "TypeError: fetch failed") = false := by
  decide

/-- C6 (amended): when all three candidates are rejected, the endpoint
responds 502 with the diagnostic recorded for the last candidate: always
its url; the HTTP status, lower-cased content-type and 250-character body
snippet when the rejection was a non-success status, a parse failure or a
non-array shape; and only the url with a stringified error when the
candidate threw (network failure, null payload, or null comment element). -/
theorem c6_exhausted_fallback (fO : String → FetchResp) (uO : Json → FetchResp)
    (postId : String)
    (hall : ∀ u ∈ commentUrls postId, rejectSpec (fO u) = true) :
    ∃ e, handleComments fO uO postId = .err502 (some e) ∧
      processCandidate uO (commentUrl3 postId) (fO (commentUrl3 postId)) =
        .error e ∧
      errUrlOf e = commentUrl3 postId ∧
      (respShapedReject (fO (commentUrl3 postId)) = true →
        e = .respErr (commentUrl3 postId) (fO (commentUrl3 postId)).status
          (ctOf (fO (commentUrl3 postId)))
          (snippetOf (fO (commentUrl3 postId)))) ∧
      (respShapedReject (fO (commentUrl3 postId)) = false →
        ∃ m, e = .exnErr (commentUrl3 postId) m) := by
  obtain ⟨e1, he1, _, _, _⟩ := processCandidate_error_shape uO (commentUrl1 postId)
    (fO (commentUrl1 postId)) (hall _ (by simp [commentUrls]))
  obtain ⟨e2, he2, _, _, _⟩ := processCandidate_error_shape uO (commentUrl2 postId)
    (fO (commentUrl2 postId)) (hall _ (by simp [commentUrls]))
  obtain ⟨e3, he3, hu3, hs3, hx3⟩ := processCandidate_error_shape uO
    (commentUrl3 postId) (fO (commentUrl3 postId)) (hall _ (by simp [commentUrls]))
  refine ⟨e3, ?_, he3, hu3, hs3, hx3⟩
  unfold handleComments commentUrls
  simp only [commentsLoop, he1, he2, he3]

theorem c6_exhausted_fallback_witness :
    ∃ e, handleComments all404O netUserO "1" = .err502 (some e) ∧
      processCandidate netUserO (commentUrl3 "1") (all404O (commentUrl3 "1")) =
        .error e ∧
      errUrlOf e = commentUrl3 "1" ∧
      (respShapedReject (all404O (commentUrl3 "1")) = true →
        e = .respErr (commentUrl3 "1") (all404O (commentUrl3 "1")).status
          (ctOf (all404O (commentUrl3 "1")))
          (snippetOf (all404O (commentUrl3 "1")))) ∧
      (respShapedReject (all404O (commentUrl3 "1")) = false →
        ∃ m, e = .exnErr (commentUrl3 "1") m) :=
  c6_exhausted_fallback all404O netUserO "1" (by decide)

/-!
Vote / favorite / unfavorite proxies (`server.js` lines 14-15, 61-133):
server-side default credentials come from the environment (empty or absent
degrade to `null`), and each handler computes `login = DEFAULT_LOGIN ||
login; api_key = DEFAULT_API_KEY || api_key` before forwarding the JSON
body upstream.
-/

/-- `process.env.X || null` (lines 14-15). -/
def envDefault (env : Option String) : Option String :=
  match env with
  | some s => if s = "" then none else some s
  | none => none

/-- `DEFAULT || client` (lines 65-66, 91-92, 115-116): the configured
string wins when truthy (non-empty), else the client value is kept
unchanged (`none` = absent from the request body). -/
def forwardedCred (dflt : Option String) (client : Option Json) : Option Json :=
  match dflt with
  | none => client
  | some s => if s = "" then client else some (.str s)

structure ServerConfig where
  loginEnv : Option String
  apiKeyEnv : Option String
deriving DecidableEq

def defaultLogin (cfg : ServerConfig) : Option String := envDefault cfg.loginEnv

def defaultApiKey (cfg : ServerConfig) : Option String := envDefault cfg.apiKeyEnv

structure VoteBody where
  score : Option Json
  login : Option Json
  api_key : Option Json
deriving DecidableEq

structure FavoriteBody where
  post_id : Option Json
  login : Option Json
  api_key : Option Json
deriving DecidableEq

structure UnfavoriteBody where
  login : Option Json
  api_key : Option Json
deriving DecidableEq

/-- Body forwarded by `POST /api/posts/:id/vote` (lines 61-76). -/
def voteForward (cfg : ServerConfig) (score login api_key : Option Json) :
    VoteBody :=
  { score := score
    login := forwardedCred (defaultLogin cfg) login
    api_key := forwardedCred (defaultApiKey cfg) api_key }

/-- Body forwarded by `POST /api/favorites` (lines 88-102). -/
def favoriteForward (cfg : ServerConfig) (post_id login api_key : Option Json) :
    FavoriteBody :=
  { post_id := post_id
    login := forwardedCred (defaultLogin cfg) login
    api_key := forwardedCred (defaultApiKey cfg) api_key }

/-- Body forwarded by `DELETE /api/favorites/:id` (lines 111-126). -/
def unfavoriteForward (cfg : ServerConfig) (login api_key : Option Json) :
    UnfavoriteBody :=
  { login := forwardedCred (defaultLogin cfg) login
    api_key := forwardedCred (defaultApiKey cfg) api_key }

theorem envDefault_ne_empty (env : Option String) (s : String)
    (h : envDefault env = some s) : s ≠ "" := by
  cases env with
  | none => cases h
  | some t =>
      simp only [envDefault] at h
      by_cases ht : t = ""
      · rw [if_pos ht] at h; cases h
      · rw [if_neg ht] at h
        cases h
        exact ht

theorem forwardedCred_of_some (dflt : Option String) (s : String)
    (hd : dflt = some s) (hs : s ≠ "") (client : Option Json) :
    forwardedCred dflt client = some (.str s) := by
  subst hd
  simp [forwardedCred, hs]

/-- C7: for the vote, favorite and unfavorite bodies, each credential field
forwarded upstream is the configured server-side default when one is
configured, and the client-supplied value unchanged when none is; the rest
of the body (score, post id) is forwarded unchanged. -/
theorem c7_credential_merge (cfg : ServerConfig)
    (score post_id login api_key : Option Json) :
    (∀ s, defaultLogin cfg = some s →
      (voteForward cfg score login api_key).login = some (.str s) ∧
      (favoriteForward cfg post_id login api_key).login = some (.str s) ∧
      (unfavoriteForward cfg login api_key).login = some (.str s)) ∧
    (defaultLogin cfg = none →
      (voteForward cfg score login api_key).login = login ∧
      (favoriteForward cfg post_id login api_key).login = login ∧
      (unfavoriteForward cfg login api_key).login = login) ∧
    (∀ s, defaultApiKey cfg = some s →
      (voteForward cfg score login api_key).api_key = some (.str s) ∧
      (favoriteForward cfg post_id login api_key).api_key = some (.str s) ∧
      (unfavoriteForward cfg login api_key).api_key = some (.str s)) ∧
    (defaultApiKey cfg = none →
      (voteForward cfg score login api_key).api_key = api_key ∧
      (favoriteForward cfg post_id login api_key).api_key = api_key ∧
      (unfavoriteForward cfg login api_key).api_key = api_key) ∧
    (voteForward cfg score login api_key).score = score ∧
    (favoriteForward cfg post_id login api_key).post_id = post_id := by
  refine ⟨?_, ?_, ?_, ?_, rfl, rfl⟩
  · intro s hs
    have hne := envDefault_ne_empty _ _ hs
    exact ⟨forwardedCred_of_some _ _ hs hne _, forwardedCred_of_some _ _ hs hne _,
      forwardedCred_of_some _ _ hs hne _⟩
  · intro hnone
    unfold voteForward favoriteForward unfavoriteForward
    rw [hnone]
    exact ⟨rfl, rfl, rfl⟩
  · intro s hs
    have hne := envDefault_ne_empty _ _ hs
    exact ⟨forwardedCred_of_some _ _ hs hne _, forwardedCred_of_some _ _ hs hne _,
      forwardedCred_of_some _ _ hs hne _⟩
  · intro hnone
    unfold voteForward favoriteForward unfavoriteForward
    rw [hnone]
    exact ⟨rfl, rfl, rfl⟩

theorem c7_credential_merge_witness :
    (voteForward ⟨none, none⟩ (some (.num 1)) (some (.str "x"))
        (some (.str "y"))).login = some (.str "x") ∧
    (voteForward ⟨none, none⟩ (some (.num 1)) (some (.str "x"))
        (some (.str "y"))).api_key = some (.str "y") ∧
    (voteForward ⟨none, none⟩ (some (.num 1)) (some (.str "x"))
        (some (.str "y"))).score = some (.num 1) := by
  have h := c7_credential_merge ⟨none, none⟩ (some (.num 1)) none
    (some (.str "x")) (some (.str "y"))
  exact ⟨(h.2.1 rfl).1, (h.2.2.2.1 rfl).1, h.2.2.2.2.1⟩

/-!
Posts proxy (`server.js` lines 35-56) and client post rendering
(feed script lines 80-106): the proxy appends ` -type:swf` to the tags,
filters swf posts out of the returned array, and the client loop skips swf
posts again before `addPost`.
-/

/-- `${tags} -type:swf` (line 41). -/
def finalTags (tags : String) : String := tags ++ " -type:swf"

/-- `(p?.file?.ext || '').toLowerCase()` (lines 49 and 96): `none` models
the `TypeError` thrown when the ext value is truthy but not a string. -/
def postExtLower (p : Json) : Option String :=
  match jsOrVal (optChain (optChain (some p) "file") "ext") (.str "") with
  | .str s => some (jsToLower s)
  | _ => none

/-- The server-side swf filter over the posts array (line 49); `none` when
the filter callback throws (the handler then responds 500). -/
def serverFilterPosts : List Json → Option (List Json)
  | [] => some []
  | p :: ps =>
      match postExtLower p with
      | none => none
      | some e => (serverFilterPosts ps).map
          (fun rest => if e = "swf" then rest else p :: rest)

/-- Assignment to an object field, keeping key order (new keys append). -/
def setFieldList : List (String × Json) → String → Json → List (String × Json)
  | [], k, v => [(k, v)]
  | (k', v') :: rest, k, v =>
      if k' = k then (k, v) :: rest else (k', v') :: setFieldList rest k v

/-- `data.posts = ...` (line 49). -/
def setField (j : Json) (k : String) (v : Json) : Json :=
  match j with
  | .obj fs => .obj (setFieldList fs k v)
  | _ => j

/-- The posts handler's response body (lines 44-52): when the data is truthy
and carries an array `posts` field, that array filtered; otherwise the data
unchanged; `none` models the catch branch (500). -/
def serverPostsResp (data : Json) : Option Json :=
  if jsTruthy data then
    match jsGet data "posts" with
    | some (.arr l) =>
        (serverFilterPosts l).map (fun l' => setField data "posts" (.arr l'))
    | _ => some data
  else some data

/-- The render loop of `fetchPosts` (lines 95-98): swf posts are skipped; a
throwing ext read aborts the loop (caught by `fetchPosts`), keeping the
cards already added. -/
def clientRenderedPosts : List Json → List Json
  | [] => []
  | p :: ps =>
      match postExtLower p with
      | none => []
      | some e =>
          if e = "swf" then clientRenderedPosts ps
          else p :: clientRenderedPosts ps

/-- The spec scenario's first post: id 1, a webm file. -/
def scenarioPost1 : Json :=
  .obj [("id", .num 1), ("file", .obj [("ext", .str "webm"), ("url", .str "a.webm")])]

/-- The spec scenario's second post: id 2, a swf file. -/
def scenarioPost2 : Json :=
  .obj [("id", .num 2), ("file", .obj [("ext", .str "swf"), ("url", .str "b.swf")])]

def scenarioPostsData : Json := .obj [("posts", .arr [scenarioPost1, scenarioPost2])]

theorem serverFilterPosts_spec :
    ∀ (l l' : List Json), serverFilterPosts l = some l' →
      List.Sublist l' l ∧ ∀ p ∈ l', ∃ e, postExtLower p = some e ∧ e ≠ "swf" := by
  intro l
  induction l with
  | nil =>
      intro l' h
      simp only [serverFilterPosts, Option.some.injEq] at h
      subst h
      simp
  | cons p ps ih =>
      intro l' h
      unfold serverFilterPosts at h
      cases he : postExtLower p with
      | none => rw [he] at h; cases h
      | some e =>
          rw [he] at h
          cases hrest : serverFilterPosts ps with
          | none => rw [hrest] at h; cases h
          | some rest =>
              rw [hrest] at h
              simp only [Option.map_some', Option.some.injEq] at h
              obtain ⟨hsub, hall⟩ := ih rest hrest
              by_cases hswf : e = "swf"
              · rw [if_pos hswf] at h
                subst h
                exact ⟨hsub.cons _, hall⟩
              · rw [if_neg hswf] at h
                subst h
                refine ⟨hsub.cons₂ _, ?_⟩
                intro q hq
                rcases List.mem_cons.mp hq with rfl | hq
                · exact ⟨e, he, hswf⟩
                · exact hall q hq

theorem clientRenderedPosts_spec :
    ∀ posts : List Json,
      List.Sublist (clientRenderedPosts posts) posts ∧
      ∀ p ∈ clientRenderedPosts posts, ∃ e, postExtLower p = some e ∧ e ≠ "swf" := by
  intro posts
  induction posts with
  | nil => simp [clientRenderedPosts]
  | cons p ps ih =>
      cases he : postExtLower p with
      | none => simp [clientRenderedPosts, he]
      | some e =>
          by_cases hswf : e = "swf"
          · simp only [clientRenderedPosts, he, if_pos hswf]
            exact ⟨ih.1.cons _, ih.2⟩
          · simp only [clientRenderedPosts, he, if_neg hswf]
            refine ⟨ih.1.cons₂ _, ?_⟩
            intro q hq
            rcases List.mem_cons.mp hq with rfl | hq
            · exact ⟨e, he, hswf⟩
            · exact ih.2 q hq

/-- C8: the forwarded tags are the client tags with ` -type:swf` appended;
the proxy filter keeps only posts whose (lower-cased) extension is not
"swf" (a sublist of the upstream array), the client render loop
independently does the same, and on the spec's scenario data the proxy
drops post 2 and the client renders exactly one card, post 1 — which the
client filter would also have dropped had it arrived. -/
theorem c8_swf_filtering :
    (∀ tags : String, (finalTags tags).data = tags.data ++ (" -type:swf").data) ∧
    (∀ (l l' : List Json), serverFilterPosts l = some l' →
      List.Sublist l' l ∧ ∀ p ∈ l', ∃ e, postExtLower p = some e ∧ e ≠ "swf") ∧
    (∀ posts : List Json,
      List.Sublist (clientRenderedPosts posts) posts ∧
      ∀ p ∈ clientRenderedPosts posts, ∃ e, postExtLower p = some e ∧ e ≠ "swf") ∧
    serverPostsResp scenarioPostsData = some (.obj [("posts", .arr [scenarioPost1])]) ∧
    clientRenderedPosts [scenarioPost1] = [scenarioPost1] ∧
    clientRenderedPosts [scenarioPost1, scenarioPost2] = [scenarioPost1] ∧
    jsGet scenarioPost1 "id" = some (.num 1) :=
  ⟨fun tags => String.data_append tags " -type:swf",
   serverFilterPosts_spec,
   clientRenderedPosts_spec,
   by decide, by decide, by decide, by decide⟩

/-- C10: the output of `escapeHtml` contains no `<`, `>`, double- or
single-quote characters, and every `&` in it begins one of the five HTML
entities (ampersand being replaced first); `addPost` passes the
upstream-controlled artist text and description into the card markup only
through `escapeHtml`, so the number of `<` characters in the markup is
independent of that upstream text — upstream text cannot inject an HTML
element into the card. -/
theorem c10_escape_html_injection :
    (∀ s : List Char,
      (∀ x ∈ escapeHtml s, x ∉ htmlSpecials) ∧ ampOk (escapeHtml s) = true) ∧
    ∀ (a d a' d' : List Char) (t u dn cc : Int), (d = [] ↔ d' = []) →
      (infoHTML a d t u dn cc).count '<' = (infoHTML a' d' t u dn cc).count '<' :=
  ⟨fun s => ⟨escapeHtml_not_special s, escapeHtml_ampOk s⟩,
   fun a d a' d' t u dn cc hd => infoHTML_count_lt a d a' d' t u dn cc hd⟩

/-- For contrast with the below-window leak: the above-window removal loop
does detach listeners.  At a feed of 13 cards of height 10, viewport 10 and
`scrollTop` 120 (current card 12, keep-window start 2), card 0 owns
registered listener id 0; the prune removes card 0 above-window and the
listener is unregistered from the document. -/
theorem prune_above_window_detaches :
    (let st : FeedState :=
      { cards := (List.range 13).map
          (fun i => { fetchIdx := i, height := 10,
                      handlerId := if i = 0 then some 0 else none })
        scrollTop := 120
        clientHeight := 10
        docListeners := [0] }
     (∀ c ∈ (pruneAroundCurrent st).cards, c.handlerId ≠ some 0) ∧
       (pruneAroundCurrent st).docListeners = []) := by
  decide
